import Mathlib

/-!
Verification development for the fashion AI style-advisor repository.

The definitions below are a shallow embedding of the repository's Python
code (`app.py`, `generate_tags_with_gemini.py`): product records and
criteria become Lean structures, the candidate filter
`find_products_by_criteria`, the grounding/validation loop, the budget
display logic and the fenced-block extraction become executable Lean
functions.  Prices are modelled as rationals, the user budget as a
natural number (the budget slider yields an integer between 50 and
2000), the injected randomness of `random.shuffle` as an explicit
permutation-valued parameter, and the streamlit warning side effects as
accumulated lists.
-/

namespace FashionAI

/-- A catalog product record, as loaded from the tagged JSON file and as
consumed by `find_products_by_criteria` and the validation loop in
`app.py`. -/
structure Product where
  product_name : String
  description : String
  category : String
  sub_category : String
  gender : String
  color : String
  brand : String
  price : ℚ
  currency : String
  image_url : String
  purchase_link : String
  occasion_tags : List String
  style_tags : List String
deriving DecidableEq

/-- The retrieval criteria dictionary built in `app.py` (lines 129-136):
string fields are `none` when the key is absent or maps to Python `None`;
the empty string is also falsy in the Python guards and is handled inside
each predicate below. -/
structure Criteria where
  gender : Option String
  category : Option String
  max_price : Option ℚ
  color : Option String
  occasion_tags : List String
  style_tags : List String
deriving DecidableEq

/-- Lower-casing of a string, character by character, modelling the
Python `.lower()` calls of the filter and defined directly on the
character list so that concrete instances evaluate. -/
def strLower (s : String) : String := String.mk (s.data.map Char.toLower)

/-- Substring containment on strings, modelling the Python `in` operator
on `str` used for the color filter. -/
def strContainsSub (hay needle : String) : Bool :=
  (List.range (hay.toList.length + 1)).any
    (fun i => needle.toList.isPrefixOf (hay.toList.drop i))

/-- Gender filter of `find_products_by_criteria`: the product is rejected
iff the criteria gender is present, truthy, not `any`, and differs
case-insensitively from the product gender. -/
def genderOk (c : Criteria) (p : Product) : Bool :=
  match c.gender with
  | none => true
  | some g =>
    if g == "" || strLower g == "any" then true
    else strLower p.gender == strLower g

/-- Category filter: skipped when absent, falsy, `any` or the
`full outfit` wildcard; otherwise case-insensitive exact match. -/
def categoryOk (c : Criteria) (p : Product) : Bool :=
  match c.category with
  | none => true
  | some g =>
    if g == "" || strLower g == "any" || strLower g == "full outfit" then true
    else strLower p.category == strLower g

/-- Price filter: rejected iff `max_price` is present and the product
price exceeds it. -/
def priceOk (c : Criteria) (p : Product) : Bool :=
  match c.max_price with
  | none => true
  | some m => decide (p.price ≤ m)

/-- Color filter: case-insensitive substring containment of the criteria
color in the product color, skipped when absent, falsy or `any`. -/
def colorOk (c : Criteria) (p : Product) : Bool :=
  match c.color with
  | none => true
  | some g =>
    if g == "" || strLower g == "any" then true
    else strContainsSub (strLower p.color) (strLower g)

/-- Occasion-tag filter: when the criteria set is non-empty, some
criteria tag must occur (case-insensitively) among the product's
occasion tags (OR semantics). -/
def occasionOk (c : Criteria) (p : Product) : Bool :=
  if c.occasion_tags.isEmpty then true
  else c.occasion_tags.any
    (fun tag => (p.occasion_tags.map strLower).contains (strLower tag))

/-- Style-tag filter, same OR semantics as `occasionOk`. -/
def styleOk (c : Criteria) (p : Product) : Bool :=
  if c.style_tags.isEmpty then true
  else c.style_tags.any
    (fun tag => (p.style_tags.map strLower).contains (strLower tag))

/-- Conjunction of all six predicates of `find_products_by_criteria`:
the Python loop sets `match = False` in independent `if` statements, so a
product is kept iff every predicate passes. -/
def matchesCriteria (c : Criteria) (p : Product) : Bool :=
  genderOk c p && categoryOk c p && priceOk c p &&
    colorOk c p && occasionOk c p && styleOk c p

/-- `find_products_by_criteria` from `app.py` (lines 41-87): collect all
matching products, shuffle them, and return the slice
`found[:min(len(found), num_results)]`.  The call to `random.shuffle` is
modelled by the explicit `shuffle` parameter; theorems assume it is a
permutation. -/
def find_products_by_criteria (shuffle : List Product → List Product)
    (productsData : List Product) (c : Criteria) (numResults : Nat) :
    List Product :=
  let found := productsData.filter (matchesCriteria c)
  let shuffled := shuffle found
  shuffled.take (min shuffled.length numResults)

/-- A model-suggested item as parsed from the structured block
(`suggested_products` entries in `app.py`): untrusted, possibly
tampered. -/
structure SuggestedItem where
  name : String
  description : String
  color : String
  category : String
  price : ℚ
  image_url : String
  purchase_link : String
deriving DecidableEq

/-- The per-item pool lookup of the validation loop (`app.py`
lines 251-253): the first pool product whose `product_name` and
`category` equal the suggestion's `name` and `category` (Python
`next(..., None)` over a generator). -/
def groundItem (pool : List Product) (ai : SuggestedItem) : Option Product :=
  pool.find? (fun p => p.product_name == ai.name && p.category == ai.category)

/-- The state threaded through the validation loop of `app.py`
(lines 245-260): the `display_products` list, the accumulated
`total_cost_ai_suggested`, and the unmatched suggestions for which
`st.warning` was emitted (the Python warning text embeds the
suggestion's name; we record the whole unmatched suggestion). -/
structure ValidationOutcome where
  display_products : List Product
  warnings : List SuggestedItem
  total_cost : ℚ
deriving DecidableEq

/-- One iteration of the validation loop: on a pool hit append the
pool's product (never the model's copy) and add the pool price; on a
miss record a warning. -/
def validationStep (pool : List Product) (acc : ValidationOutcome)
    (ai : SuggestedItem) : ValidationOutcome :=
  match groundItem pool ai with
  | some p =>
    ⟨acc.display_products ++ [p], acc.warnings, acc.total_cost + p.price⟩
  | none =>
    ⟨acc.display_products, acc.warnings ++ [ai], acc.total_cost⟩

/-- The grounding validator: the whole `for ai_prod in
suggested_products_from_ai` loop of `app.py`, starting from empty
`display_products` and `total_cost_ai_suggested = 0.0`. -/
def validateSuggestions (pool : List Product) (sugg : List SuggestedItem) :
    ValidationOutcome :=
  sugg.foldl (validationStep pool) ⟨[], [], 0⟩

/-- Sum of a product list's prices. -/
def totalPrice (l : List Product) : ℚ :=
  (l.map Product.price).sum

/-- Guard of the total-cost `st.success` message (`app.py` line 262):
it is shown iff the chosen category is the `Full outfit` wildcard and
`display_products` is non-empty. -/
def totalShown (user_category : String) (display_products : List Product) :
    Bool :=
  user_category == "Full outfit" && !display_products.isEmpty

/-- Guard of the budget-overrun `st.warning` (`app.py` lines 262-267):
nested inside the `totalShown` guard, it additionally requires the
accumulated total to exceed the budget. -/
def budgetWarningShown (user_category : String)
    (display_products : List Product) (total_cost : ℚ)
    (user_budget : ℚ) : Bool :=
  totalShown user_category display_products && decide (total_cost > user_budget)

/-- The left-brace character, written via its code point. -/
def lbrace : Char := Char.ofNat 123

/-- The right-brace character, written via its code point. -/
def rbrace : Char := Char.ofNat 125

/-- The opening delimiter of the fenced structured block, including the
brace opening the captured group: the regex literal is the fence marker,
a newline, then a left brace. -/
def openMarker : List Char := "```json\n".toList ++ [lbrace]

/-- What must follow the closing brace of the captured group: a newline
and the closing fence. -/
def closeTail : List Char := "\n```".toList

/-- The non-greedy body match: consume characters until the first
position holding a right brace immediately followed by `closeTail`;
return the consumed body, or `none` when no such position exists.  This
is the `(\x7b.*?\x7d)` group with `re.DOTALL` after backtracking. -/
def bodyUpTo : List Char → Option (List Char)
  | [] => none
  | c :: rest =>
    if c == rbrace && closeTail.isPrefixOf rest then some []
    else (bodyUpTo rest).map (fun b => c :: b)

/-- Attempt to match the whole fenced-block pattern at the start of the
given suffix; on success return the captured group (braces included). -/
def matchAt (s : List Char) : Option (List Char) :=
  if openMarker.isPrefixOf s then
    (bodyUpTo (s.drop openMarker.length)).map
      (fun b => lbrace :: (b ++ [rbrace]))
  else none

/-- `re.search` of the fenced-block pattern: try every start position
left to right and return the first match (leftmost start, shortest
body). -/
def searchJson : List Char → Option (List Char)
  | [] => none
  | c :: rest =>
    match matchAt (c :: rest) with
    | some g => some g
    | none => searchJson rest

/-- Declaratively, the raw text contains a fenced structured block: some
decomposition exhibits the opening marker, a body, the closing brace and
the closing fence. -/
def hasFencedBlock (raw : List Char) : Prop :=
  ∃ pre body post,
    raw = pre ++ openMarker ++ body ++ [rbrace] ++ closeTail ++ post

/-- Outcome of the structured-response extraction in `app.py`
(lines 231-284): either the captured block is handed to the JSON parser,
or the `else` branch shows an error and surfaces the raw model text. -/
inductive ExtractionOutcome where
  | structuredBlock (json_str : List Char)
  | noStructuredBlock (raw_text : List Char)
deriving DecidableEq

/-- The extraction step of `app.py`: `re.search` on the raw response;
on failure the raw text itself is surfaced (`st.error` plus a markdown
dump of `ai_raw_response`); no retry of the model call occurs. -/
def extractStructured (ai_raw_response : List Char) : ExtractionOutcome :=
  match searchJson ai_raw_response with
  | some g => ExtractionOutcome.structuredBlock g
  | none => ExtractionOutcome.noStructuredBlock ai_raw_response

/-- `generate_tags_for_product` from `generate_tags_with_gemini.py`
(lines 69-84), given the model's raw text: on a fenced-block match the
captured group is parsed and the two tag lists extracted (the
`json.loads` plus `.get` steps are the `parseTags` parameter, a library
call outside this embedding); when no block matches, the function prints
a console warning and returns two empty lists. -/
def generate_tags_for_product
    (parseTags : List Char → List String × List String)
    (text_response : List Char) : List String × List String :=
  match searchJson text_response with
  | some json_str => parseTags json_str
  | none => ([], [])

/-- Wrap a pool product as the suggestion the model would produce by
copying it verbatim (the echo format requested by the prompt). -/
def toSuggested (p : Product) : SuggestedItem :=
  ⟨p.product_name, p.description, p.color, p.category, p.price,
    p.image_url, p.purchase_link⟩

/-- Identity uniqueness of a pool: no two distinct entries share the
(name, category) pair. -/
def UniquePool (pool : List Product) : Prop :=
  pool.Pairwise
    (fun a b => ¬(a.product_name = b.product_name ∧ a.category = b.category))

/-- Concrete catalog product used in witnesses: a cheap tee shirt. -/
def teeShirt : Product :=
  ⟨"Basic Tee", "plain cotton tee", "Tshirt", "Topwear", "Men", "White",
    "BrandA", 10, "PLN", "http://img/tee", "http://shop/tee", [], []⟩

/-- A catalog of 21 identical cheap products, more than the sample
limit of 20 used by `find_products_by_criteria`. -/
def smallCatalog : List Product := List.replicate 21 teeShirt

/-- Criteria whose gender, category and color are absent, whose tag sets
are empty, and whose only active field is `max_price = 100`. -/
def wildcardCriteria : Criteria := ⟨none, none, some 100, none, [], []⟩

/-- Concrete pool product for the grounding scenarios: the Red Dress at
the authoritative price 120. -/
def redDress : Product :=
  ⟨"Red Dress", "an elegant red dress", "Dress", "Dresses", "Women",
    "Red", "BrandB", 120, "PLN", "http://img/reddress",
    "http://shop/reddress", ["party"], ["elegant"]⟩

/-- The model's echo of the Red Dress with a tampered price of 999. -/
def tamperedSuggestion : SuggestedItem :=
  ⟨"Red Dress", "an elegant red dress", "Red", "Dress", 999,
    "http://img/reddress", "http://shop/reddress"⟩

/-- A suggestion whose (name, category) pair matches nothing. -/
def ghostSuggestion : SuggestedItem :=
  ⟨"Invisible Cloak", "does not exist", "Clear", "Outerwear", 50,
    "http://img/none", "http://shop/none"⟩

/-- Concrete product carrying an occasion tag, for the tag-filter
witness. -/
def partyShirt : Product :=
  ⟨"Party Shirt", "sequined shirt", "Shirt", "Topwear", "Men", "Black",
    "BrandC", 80, "PLN", "http://img/pshirt", "http://shop/pshirt",
    ["Party", "date night"], ["glamorous"]⟩

/-- Criteria selecting by one occasion tag (case differing from the
product's). -/
def partyCriteria : Criteria := ⟨none, none, none, none, ["party"], []⟩

/-- Parse function standing for a model response whose block genuinely
holds two empty tag lists. -/
def emptyTagsParse : List Char → List String × List String :=
  fun _ => ([], [])

/-- A raw model answer with no fenced block at all. -/
def rawNoBlock : List Char :=
  "Sorry, I cannot tag this product.".toList

/-- A raw model answer with a well-formed fenced block whose payload has
empty tag lists. -/
def rawWithBlock : List Char :=
  ("```json\n\x7b \"occasion_tags\": [], \"style_tags\": [] \x7d\n```").toList

/-- A criteria string field is a wildcard when the key is absent, maps
to a falsy value, or equals `any` case-insensitively. -/
def isWildcardOpt : Option String → Bool
  | none => true
  | some s => s == "" || strLower s == "any"

/-- A raw model answer consisting of prose only. -/
def rawRefusal : List Char :=
  "The model replied with prose only.".toList

/-- A raw model answer for the tagging pipeline with no fenced block. -/
def rawTagFailure : List Char :=
  "I could not produce tags for this item.".toList

/-! ### Helper lemmas -/

/-- Accumulator-generalised description of the validation loop: it
appends the grounded products, the unmatched suggestions, and the sum of
the grounded products' prices to the starting state. -/
theorem validate_foldl_acc (pool : List Product) (sugg : List SuggestedItem)
    (acc : ValidationOutcome) :
    sugg.foldl (validationStep pool) acc =
      ⟨acc.display_products ++ sugg.filterMap (groundItem pool),
       acc.warnings ++ sugg.filter (fun ai => (groundItem pool ai).isNone),
       acc.total_cost +
         (((sugg.filterMap (groundItem pool)).map Product.price).sum)⟩ := by
  induction sugg generalizing acc with
  | nil => simp
  | cons ai rest ih =>
    cases hg : groundItem pool ai with
    | some p =>
      simp only [List.foldl_cons, validationStep, hg, ih,
        List.filterMap_cons, List.filter_cons, Option.isNone_some,
        List.map_cons, List.sum_cons]
      simp [List.append_assoc, add_assoc]
    | none =>
      simp only [List.foldl_cons, validationStep, hg, ih,
        List.filterMap_cons, List.filter_cons, Option.isNone_none,
        List.map_cons, List.sum_cons]
      simp [List.append_assoc]

/-- Closed form of the grounding validator: products are the pool hits
in suggestion order, warnings are the misses in order, and the total is
the sum of the hit prices. -/
theorem validateSuggestions_spec (pool : List Product)
    (sugg : List SuggestedItem) :
    validateSuggestions pool sugg =
      ⟨sugg.filterMap (groundItem pool),
       sugg.filter (fun ai => (groundItem pool ai).isNone),
       ((sugg.filterMap (groundItem pool)).map Product.price).sum⟩ := by
  simpa [validateSuggestions] using validate_foldl_acc pool sugg ⟨[], [], 0⟩

/-- In a pool with unique (name, category) identities, the validation
lookup keyed on a member's identity finds exactly that member. -/
theorem find_key_unique (pool : List Product) (hu : UniquePool pool)
    (p : Product) (hp : p ∈ pool) :
    pool.find?
      (fun q => q.product_name == p.product_name && q.category == p.category)
      = some p := by
  induction pool with
  | nil => cases hp
  | cons a t ih =>
    rcases List.pairwise_cons.mp hu with ⟨ha, ht⟩
    by_cases hq :
        (a.product_name == p.product_name && a.category == p.category) = true
    · rw [List.find?_cons_of_pos t hq]
      rcases List.mem_cons.mp hp with rfl | hpt
      · rfl
      · exfalso
        simp only [Bool.and_eq_true, beq_iff_eq] at hq
        exact ha p hpt ⟨hq.1, hq.2⟩
    · rw [List.find?_cons_of_neg t (by simpa using hq)]
      have hpt : p ∈ t := by
        rcases List.mem_cons.mp hp with rfl | hpt
        · exact absurd (by simp) hq
        · exact hpt
      exact ih ht hpt

/-- Grounding a verbatim echo of a pool member returns that member. -/
theorem groundItem_toSuggested (pool : List Product) (hu : UniquePool pool)
    (p : Product) (hp : p ∈ pool) :
    groundItem pool (toSuggested p) = some p := by
  simpa [groundItem, toSuggested] using find_key_unique pool hu p hp

/-- Soundness of the non-greedy body scan: success exhibits the closing
brace and closing fence in the scanned suffix. -/
theorem bodyUpTo_sound (s b : List Char) (h : bodyUpTo s = some b) :
    ∃ post, s = b ++ rbrace :: (closeTail ++ post) := by
  induction s generalizing b with
  | nil => simp [bodyUpTo] at h
  | cons c rest ih =>
    by_cases hc : (c == rbrace && closeTail.isPrefixOf rest) = true
    · rw [bodyUpTo, if_pos hc] at h
      obtain rfl : ([] : List Char) = b := Option.some.inj h
      simp only [Bool.and_eq_true, beq_iff_eq] at hc
      obtain ⟨post, hpost⟩ := List.isPrefixOf_iff_prefix.mp hc.2
      exact ⟨post, by simp [hc.1, hpost.symm]⟩
    · rw [bodyUpTo, if_neg hc] at h
      cases hrest : bodyUpTo rest with
      | none => rw [hrest] at h; cases h
      | some b' =>
        rw [hrest] at h
        obtain rfl : c :: b' = b := Option.some.inj h
        obtain ⟨post, hpost⟩ := ih b' hrest
        exact ⟨post, by simp [hpost]⟩

/-- Completeness of the non-greedy body scan: a suffix holding a closing
brace followed by the closing fence is always accepted. -/
theorem bodyUpTo_complete (body t : List Char)
    (h : closeTail.isPrefixOf t = true) :
    (bodyUpTo (body ++ rbrace :: t)).isSome = true := by
  induction body with
  | nil =>
    rw [List.nil_append, bodyUpTo]
    rw [if_pos (by simp [h])]
    rfl
  | cons c body' ih =>
    rw [List.cons_append, bodyUpTo]
    by_cases hc :
        (c == rbrace && closeTail.isPrefixOf (body' ++ rbrace :: t)) = true
    · rw [if_pos hc]; rfl
    · rw [if_neg hc]
      cases hrest : bodyUpTo (body' ++ rbrace :: t) with
      | none => rw [hrest] at ih; cases ih
      | some b' => rfl

/-- Soundness of the anchored pattern match: success decomposes the
suffix as opening marker, body, closing brace, closing fence and
remainder. -/
theorem matchAt_sound (s g : List Char) (h : matchAt s = some g) :
    ∃ body post,
      s = openMarker ++ body ++ [rbrace] ++ closeTail ++ post := by
  rw [matchAt] at h
  by_cases hp : openMarker.isPrefixOf s = true
  · rw [if_pos hp] at h
    cases hb : bodyUpTo (s.drop openMarker.length) with
    | none => rw [hb] at h; cases h
    | some b =>
      obtain ⟨post, hpost⟩ := bodyUpTo_sound _ b hb
      obtain ⟨t, ht⟩ := List.isPrefixOf_iff_prefix.mp hp
      refine ⟨b, post, ?_⟩
      have hdrop : s.drop openMarker.length = t := by
        rw [← ht, List.drop_left]
      rw [hdrop] at hpost
      rw [← ht, hpost]
      simp
  · rw [if_neg hp] at h; cases h

/-- Completeness of the anchored pattern match. -/
theorem matchAt_complete (body post : List Char) :
    (matchAt (openMarker ++ body ++ [rbrace] ++ closeTail ++ post)).isSome
      = true := by
  rw [matchAt]
  rw [if_pos (List.isPrefixOf_iff_prefix.mpr ⟨body ++ [rbrace] ++ closeTail ++ post, by simp⟩)]
  have hdrop :
      (openMarker ++ body ++ [rbrace] ++ closeTail ++ post).drop
        openMarker.length = body ++ rbrace :: (closeTail ++ post) := by
    have : openMarker ++ body ++ [rbrace] ++ closeTail ++ post
        = openMarker ++ (body ++ rbrace :: (closeTail ++ post)) := by simp
    rw [this, List.drop_left]
  rw [hdrop]
  have hb := bodyUpTo_complete body (closeTail ++ post)
    (List.isPrefixOf_iff_prefix.mpr ⟨post, rfl⟩)
  cases hbb : bodyUpTo (body ++ rbrace :: (closeTail ++ post)) with
  | none => rw [hbb] at hb; cases hb
  | some b => rfl

/-- Soundness of the left-to-right search: a successful search means the
raw text contains a fenced block. -/
theorem searchJson_sound (raw g : List Char) (h : searchJson raw = some g) :
    hasFencedBlock raw := by
  induction raw with
  | nil => simp [searchJson] at h
  | cons c rest ih =>
    rw [searchJson] at h
    cases hm : matchAt (c :: rest) with
    | some g' =>
      obtain ⟨body, post, hdec⟩ := matchAt_sound _ g' hm
      exact ⟨[], body, post, by simpa using hdec⟩
    | none =>
      rw [hm] at h
      obtain ⟨pre, body, post, hdec⟩ := ih h
      exact ⟨c :: pre, body, post, by simp [hdec]⟩

/-- Completeness of the left-to-right search: a raw text containing a
fenced block is never rejected. -/
theorem searchJson_complete (raw : List Char) (h : hasFencedBlock raw) :
    (searchJson raw).isSome = true := by
  obtain ⟨pre, body, post, hdec⟩ := h
  subst hdec
  induction pre with
  | nil =>
    have hm := matchAt_complete body post
    cases hcons :
        ([] : List Char) ++ openMarker ++ body ++ [rbrace] ++ closeTail ++ post with
    | nil => simp [openMarker] at hcons
    | cons c rest =>
      have hceq :
          openMarker ++ body ++ [rbrace] ++ closeTail ++ post = c :: rest := by
        simpa using hcons
      rw [hceq] at hm
      rw [searchJson]
      cases hmm : matchAt (c :: rest) with
      | none => rw [hmm] at hm; cases hm
      | some g => rfl
  | cons c pre' ih =>
    have hshape :
        (c :: pre') ++ openMarker ++ body ++ [rbrace] ++ closeTail ++ post
          = c :: (pre' ++ openMarker ++ body ++ [rbrace] ++ closeTail ++ post) := by
      simp
    rw [hshape, searchJson]
    cases hmm :
        matchAt
          (c :: (pre' ++ openMarker ++ body ++ [rbrace] ++ closeTail ++ post)) with
    | some g => rfl
    | none => exact ih

/-- Grounding a list of verbatim pool echoes recovers exactly that
list. -/
theorem filterMap_ground_map_toSuggested (pool : List Product)
    (hu : UniquePool pool) :
    ∀ ps : List Product, (∀ p ∈ ps, p ∈ pool) →
      (ps.map toSuggested).filterMap (groundItem pool) = ps := by
  intro ps
  induction ps with
  | nil => intro _; rfl
  | cons p t ih =>
    intro hps
    rw [List.map_cons, List.filterMap_cons,
      groundItem_toSuggested pool hu p (hps p (List.mem_cons_self p t))]
    rw [ih (fun q hq => hps q (List.mem_cons_of_mem p hq))]

/-- In a unique pool, the number of occurrences of a member among the
grounded results equals the number of suggestions bearing its
identity. -/
theorem count_ground_filterMap (pool : List Product) (hu : UniquePool pool)
    (p : Product) (hp : p ∈ pool) (sugg : List SuggestedItem) :
    (sugg.filterMap (groundItem pool)).count p
      = sugg.countP
          (fun ai => ai.name == p.product_name && ai.category == p.category) := by
  induction sugg with
  | nil => rfl
  | cons ai rest ih =>
    by_cases hk :
        (ai.name == p.product_name && ai.category == p.category) = true
    · have hke : ai.name = p.product_name ∧ ai.category = p.category := by
        simpa [Bool.and_eq_true, beq_iff_eq] using hk
      have hg : groundItem pool ai = some p := by
        rw [groundItem]
        have hpred :
            (fun q : Product =>
                q.product_name == ai.name && q.category == ai.category)
              = (fun q : Product =>
                q.product_name == p.product_name && q.category == p.category) := by
          funext q; rw [hke.1, hke.2]
        rw [hpred]
        exact find_key_unique pool hu p hp
      simp only [List.filterMap_cons, hg]
      rw [List.count_cons_self,
        List.countP_cons_of_pos
          (fun ai => ai.name == p.product_name && ai.category == p.category)
          rest hk, ih]
    · rw [List.countP_cons_of_neg
        (fun ai => ai.name == p.product_name && ai.category == p.category)
        rest hk]
      cases hg : groundItem pool ai with
      | none =>
        simp only [List.filterMap_cons, hg]
        exact ih
      | some q =>
        have hqe : q.product_name = ai.name ∧ q.category = ai.category := by
          have := List.find?_some (by rw [groundItem] at hg; exact hg)
          simpa [Bool.and_eq_true, beq_iff_eq] using this
        have hqp : q ≠ p := by
          intro hqp
          apply hk
          subst hqp
          simp [← hqe.1, ← hqe.2]
        simp only [List.filterMap_cons, hg]
        rw [List.count_cons_of_ne (fun h => hqp h.symm), ih]

/-! ### Claim theorems -/

/-- C1: every product in the grounding validator's result is a record of
the candidate pool, matched by exact equality of the (name, category)
pair with some suggestion; since the result element is the pool record
itself, its price, image URL and purchase link are the pool's values and
never the model's echoed copies.  The witness instantiates the
tampered-price scenario: the model echoes the Red Dress with price 999
and the validator returns the pool record with price 120. -/
theorem C1_grounding_pool_authoritative (pool : List Product)
    (sugg : List SuggestedItem) (q : Product)
    (hq : q ∈ (validateSuggestions pool sugg).display_products) :
    q ∈ pool
      ∧ ∃ ai ∈ sugg, ai.name = q.product_name ∧ ai.category = q.category := by
  rw [validateSuggestions_spec] at hq
  simp only [List.mem_filterMap] at hq
  obtain ⟨ai, hai, hg⟩ := hq
  rw [groundItem] at hg
  have hmem := List.mem_of_find?_eq_some hg
  have hpred := List.find?_some hg
  simp only [Bool.and_eq_true, beq_iff_eq] at hpred
  exact ⟨hmem, ai, hai, hpred.1.symm, hpred.2.symm⟩

/-- Witness for C1: the tampered Red Dress scenario evaluated on
concrete data. -/
theorem C1_grounding_pool_authoritative_witness :
    ((validateSuggestions [redDress] [tamperedSuggestion]).display_products
        = [redDress]
      ∧ redDress.price = 120 ∧ tamperedSuggestion.price = 999)
    ∧ (redDress ∈ [redDress]
      ∧ ∃ ai ∈ [tamperedSuggestion],
          ai.name = redDress.product_name ∧ ai.category = redDress.category) :=
  ⟨by decide,
    C1_grounding_pool_authoritative [redDress] [tamperedSuggestion] redDress
      (by
        rw [show (validateSuggestions [redDress]
            [tamperedSuggestion]).display_products = [redDress] from by decide]
        exact List.mem_singleton_self _)⟩

/-- C2: every suggestion whose (name, category) pair matches no pool
entry is recorded as a warning and contributes nothing to the result;
the result consists exactly of the pool hits of the remaining
suggestions, so an ungrounded suggestion never aborts the query, and an
all-ungrounded input yields the empty (non-error) result. -/
theorem C2_ungrounded_warn_and_drop (pool : List Product)
    (sugg : List SuggestedItem) :
    (∀ ai ∈ sugg, groundItem pool ai = none →
        ai ∈ (validateSuggestions pool sugg).warnings)
    ∧ (validateSuggestions pool sugg).display_products
        = sugg.filterMap (groundItem pool)
    ∧ ((∀ ai ∈ sugg, groundItem pool ai = none) →
        (validateSuggestions pool sugg).display_products = []) := by
  refine ⟨?_, ?_, ?_⟩
  · intro ai hai hnone
    rw [validateSuggestions_spec]
    simp [List.mem_filter, hai, hnone]
  · rw [validateSuggestions_spec]
  · intro hall
    rw [validateSuggestions_spec]
    exact List.filterMap_eq_nil_iff.mpr (fun ai hai => hall ai hai)

/-- Witness for C2: one grounded and one ungrounded suggestion. -/
theorem C2_ungrounded_warn_and_drop_witness :
    (∀ ai ∈ [tamperedSuggestion, ghostSuggestion],
        groundItem [redDress] ai = none →
          ai ∈ (validateSuggestions [redDress]
            [tamperedSuggestion, ghostSuggestion]).warnings)
    ∧ (validateSuggestions [redDress]
        [tamperedSuggestion, ghostSuggestion]).display_products
        = ([tamperedSuggestion, ghostSuggestion] : List SuggestedItem).filterMap
            (groundItem [redDress])
    ∧ ((∀ ai ∈ [tamperedSuggestion, ghostSuggestion],
          groundItem [redDress] ai = none) →
        (validateSuggestions [redDress]
          [tamperedSuggestion, ghostSuggestion]).display_products = []) :=
  C2_ungrounded_warn_and_drop [redDress] [tamperedSuggestion, ghostSuggestion]

/-- C7: on a pool with unique (name, category) identities, validating
verbatim copies of pool products returns exactly those products, in
order, with zero warnings, and the total is the sum of their prices. -/
theorem C7_idempotent_on_grounded (pool : List Product)
    (hu : UniquePool pool) (ps : List Product) (hps : ∀ p ∈ ps, p ∈ pool) :
    validateSuggestions pool (ps.map toSuggested)
      = ⟨ps, [], (ps.map Product.price).sum⟩ := by
  rw [validateSuggestions_spec]
  have hfm := filterMap_ground_map_toSuggested pool hu ps hps
  have hw : (ps.map toSuggested).filter
      (fun ai => (groundItem pool ai).isNone) = [] := by
    rw [List.filter_eq_nil_iff]
    intro ai hai
    obtain ⟨p, hp, rfl⟩ := List.mem_map.mp hai
    rw [groundItem_toSuggested pool hu p (hps p hp)]
    simp
  rw [hfm, hw]

/-- Witness for C7: a singleton pool validated against its own echo. -/
theorem C7_idempotent_on_grounded_witness :
    validateSuggestions [redDress] ([redDress].map toSuggested)
      = ⟨[redDress], [], ([redDress].map Product.price).sum⟩ :=
  C7_idempotent_on_grounded [redDress] (by simp [UniquePool]) [redDress]
    (fun p hp => hp)

/-- Validation of k verbatim echoes of one unique-pool member. -/
theorem validate_replicate_echo (pool : List Product) (hu : UniquePool pool)
    (p : Product) (hp : p ∈ pool) (k : Nat) :
    validateSuggestions pool ((List.replicate k p).map toSuggested)
      = ⟨List.replicate k p, [], k * p.price⟩ := by
  rw [validateSuggestions_spec]
  have hfm := filterMap_ground_map_toSuggested pool hu (List.replicate k p)
    (fun q hq => by rw [List.eq_of_mem_replicate hq]; exact hp)
  have hw : ((List.replicate k p).map toSuggested).filter
      (fun ai => (groundItem pool ai).isNone) = [] := by
    rw [List.filter_eq_nil_iff]
    intro ai hai
    obtain ⟨q, hq, rfl⟩ := List.mem_map.mp hai
    rw [List.eq_of_mem_replicate hq, groundItem_toSuggested pool hu p hp]
    simp
  rw [hfm, hw, List.map_replicate, List.sum_replicate, nsmul_eq_mul]

/-- C10: the grounding validator deduplicates nothing: over a unique
pool, a pool member occurs in the result once per suggestion bearing its
identity, the reported total is the sum of the result's prices, and in
particular a suggestion repeated k times yields the pool product k times
with its price counted k times. -/
theorem C10_no_deduplication (pool : List Product) (hu : UniquePool pool)
    (p : Product) (hp : p ∈ pool) (sugg : List SuggestedItem) (k : Nat) :
    (validateSuggestions pool sugg).display_products.count p
      = sugg.countP
          (fun ai => ai.name == p.product_name && ai.category == p.category)
    ∧ (validateSuggestions pool sugg).total_cost
        = totalPrice (validateSuggestions pool sugg).display_products
    ∧ validateSuggestions pool (List.replicate k (toSuggested p))
        = ⟨List.replicate k p, [], k * p.price⟩ := by
  refine ⟨?_, ?_, ?_⟩
  · rw [validateSuggestions_spec]
    exact count_ground_filterMap pool hu p hp sugg
  · rw [validateSuggestions_spec]; rfl
  · have hmap : List.replicate k (toSuggested p)
        = (List.replicate k p).map toSuggested := by
      rw [List.map_replicate]
    rw [hmap]
    rw [validate_replicate_echo pool hu p hp k]


/-- Witness for C10: the Red Dress suggested twice is returned twice and
billed twice. -/
theorem C10_no_deduplication_witness :
    ((validateSuggestions [redDress]
        [tamperedSuggestion, ghostSuggestion]).display_products.count redDress
      = ([tamperedSuggestion, ghostSuggestion] : List SuggestedItem).countP
          (fun ai => ai.name == redDress.product_name
            && ai.category == redDress.category)
    ∧ (validateSuggestions [redDress]
        [tamperedSuggestion, ghostSuggestion]).total_cost
        = totalPrice (validateSuggestions [redDress]
            [tamperedSuggestion, ghostSuggestion]).display_products
    ∧ validateSuggestions [redDress] (List.replicate 2 (toSuggested redDress))
        = ⟨List.replicate 2 redDress, [], 2 * redDress.price⟩) :=
  C10_no_deduplication [redDress] (by simp [UniquePool])
    redDress (List.mem_singleton_self _) [tamperedSuggestion, ghostSuggestion] 2

/-- C3: a raw model response containing no fenced block matching the
opening and closing delimiters (non-greedy across newlines) makes the
extraction take the failure branch, which surfaces the raw model text
itself; the function is total (no crash) and performs no second model
call (the pipeline invokes the model exactly once per query). -/
theorem C3_no_block_surfaces_raw (raw : List Char)
    (h : ¬ hasFencedBlock raw) :
    extractStructured raw = ExtractionOutcome.noStructuredBlock raw := by
  rw [extractStructured]
  cases hs : searchJson raw with
  | none => rfl
  | some g => exact absurd (searchJson_sound raw g hs) h

/-- Witness for C3: a prose-only response is rejected and surfaced. -/
theorem C3_no_block_surfaces_raw_witness :
    extractStructured rawRefusal
      = ExtractionOutcome.noStructuredBlock rawRefusal :=
  C3_no_block_surfaces_raw rawRefusal (fun hc => by
    have hs := searchJson_complete rawRefusal hc
    rw [show searchJson rawRefusal = none from by decide] at hs
    cases hs)

/-- C9 counterexample: in the batch tagging pipeline an extraction
failure is NOT surfaced to the caller — `generate_tags_for_product`
returns the pair of empty tag lists, the very same value a successful
extraction of genuinely empty tags returns, so the caller cannot
distinguish the two and writes the product with empty tags either
way. -/
theorem C9_counterexample_swallowed_failure :
    searchJson rawNoBlock = none
    ∧ (searchJson rawWithBlock).isSome = true
    ∧ generate_tags_for_product emptyTagsParse rawNoBlock = ([], [])
    ∧ generate_tags_for_product emptyTagsParse rawNoBlock
        = generate_tags_for_product emptyTagsParse rawWithBlock :=
  ⟨by decide, by decide, by decide, by decide⟩

/-- C9 amended: an extraction failure in the batch tagging pipeline is
only logged to the console; the function returns empty occasion and
style tag lists — indistinguishable from a successful empty result —
and the caller proceeds, storing the product with empty tags. -/
theorem C9_amended_tagging_returns_empty
    (parseTags : List Char → List String × List String)
    (raw : List Char) (h : ¬ hasFencedBlock raw) :
    generate_tags_for_product parseTags raw = ([], []) := by
  rw [generate_tags_for_product]
  cases hs : searchJson raw with
  | none => rfl
  | some g => exact absurd (searchJson_sound raw g hs) h

/-- Witness for the amended C9 on a concrete blockless response. -/
theorem C9_amended_tagging_returns_empty_witness :
    generate_tags_for_product emptyTagsParse rawTagFailure = ([], []) :=
  C9_amended_tagging_returns_empty emptyTagsParse rawTagFailure (fun hc => by
    have hs := searchJson_complete rawTagFailure hc
    rw [show searchJson rawTagFailure = none from by decide] at hs
    cases hs)

/-- C4: the budget warning fires iff the query is in full-outfit mode
and the sum of the validated items' prices strictly exceeds the budget;
in every other case — any total with outfit mode off, or an empty item
list (whose total 0 can never exceed the slider's natural-number
budget) — it stays silent. -/
theorem C4_exceeded_iff_outfit_and_over (user_category : String)
    (items : List Product) (user_budget : ℕ) :
    budgetWarningShown user_category items (totalPrice items)
        (user_budget : ℚ) = true
      ↔ (user_category = "Full outfit"
          ∧ totalPrice items > (user_budget : ℚ)) := by
  cases items with
  | nil =>
    simp only [budgetWarningShown, totalShown, List.isEmpty_nil,
      Bool.not_true, Bool.and_false, Bool.false_and, Bool.false_eq_true,
      false_iff, totalPrice, List.map_nil, List.sum_nil]
    rintro ⟨-, hlt⟩
    exact absurd hlt (not_lt.mpr (Nat.cast_nonneg _))
  | cons p t =>
    simp [budgetWarningShown, totalShown, Bool.and_eq_true, beq_iff_eq,
      decide_eq_true_eq]

/-- C8 counterexample: in non-outfit mode (category `Dress`), even with
a non-empty validated result, the total-cost message is not displayed:
its guard requires the `Full outfit` category. -/
theorem C8_counterexample_total_not_reported :
    ("Dress" : String) ≠ "Full outfit"
    ∧ (validateSuggestions [redDress] [tamperedSuggestion]).display_products
        ≠ []
    ∧ totalShown "Dress"
        (validateSuggestions [redDress] [tamperedSuggestion]).display_products
        = false :=
  ⟨by decide, by decide, by decide⟩

/-- C8 amended: in non-outfit mode the pipeline still computes the total
price of the validated items (the validation loop accumulates it
regardless of mode), but it does not report it: both the total-cost
message and the budget warning are suppressed outside full-outfit
mode. -/
theorem C8_amended_total_computed_not_shown (pool : List Product)
    (sugg : List SuggestedItem) (user_category : String) (user_budget : ℚ)
    (h : user_category ≠ "Full outfit") :
    (validateSuggestions pool sugg).total_cost
        = totalPrice (validateSuggestions pool sugg).display_products
    ∧ totalShown user_category
        (validateSuggestions pool sugg).display_products = false
    ∧ budgetWarningShown user_category
        (validateSuggestions pool sugg).display_products
        (validateSuggestions pool sugg).total_cost user_budget = false := by
  have hbeq : (user_category == "Full outfit") = false :=
    beq_eq_false_iff_ne.mpr h
  refine ⟨?_, ?_, ?_⟩
  · rw [validateSuggestions_spec]; rfl
  · simp [totalShown, hbeq]
  · simp [budgetWarningShown, totalShown, hbeq]

/-- Witness for the amended C8: a grounded Red Dress queried in the
`Dress` category. -/
theorem C8_amended_total_computed_not_shown_witness :
    (validateSuggestions [redDress] [tamperedSuggestion]).total_cost
        = totalPrice
            (validateSuggestions [redDress] [tamperedSuggestion]).display_products
    ∧ totalShown "Dress"
        (validateSuggestions [redDress] [tamperedSuggestion]).display_products
        = false
    ∧ budgetWarningShown "Dress"
        (validateSuggestions [redDress] [tamperedSuggestion]).display_products
        (validateSuggestions [redDress] [tamperedSuggestion]).total_cost 500
        = false :=
  C8_amended_total_computed_not_shown [redDress] [tamperedSuggestion] "Dress"
    500 (by decide)

/-- A wildcard gender criterion never rejects. -/
theorem genderOk_wildcard (c : Criteria) (p : Product)
    (h : isWildcardOpt c.gender = true) : genderOk c p = true := by
  rcases hc : c.gender with _ | g
  · simp [genderOk, hc]
  · rw [hc] at h
    simp only [isWildcardOpt] at h
    simp [genderOk, hc, h]

/-- A wildcard (absent, falsy or `any`) category criterion never
rejects. -/
theorem categoryOk_wildcard (c : Criteria) (p : Product)
    (h : isWildcardOpt c.category = true) : categoryOk c p = true := by
  rcases hc : c.category with _ | g
  · simp [categoryOk, hc]
  · rw [hc] at h
    simp only [isWildcardOpt, Bool.or_eq_true] at h
    rcases h with h | h <;> simp [categoryOk, hc, h]

/-- A wildcard color criterion never rejects. -/
theorem colorOk_wildcard (c : Criteria) (p : Product)
    (h : isWildcardOpt c.color = true) : colorOk c p = true := by
  rcases hc : c.color with _ | g
  · simp [colorOk, hc]
  · rw [hc] at h
    simp only [isWildcardOpt] at h
    simp [colorOk, hc, h]

/-- C5 counterexample: with all-wildcard criteria except
`max_price = 100`, a 21-product catalog of price-10 items filtered with
the identity shuffle and the default limit of 20 does not return the
full price-bounded subset — the sample truncation drops one item. -/
theorem C5_counterexample_truncation :
    find_products_by_criteria id smallCatalog wildcardCriteria 20
      ≠ smallCatalog.filter (fun p => decide (p.price ≤ (100 : ℚ))) := by
  decide

/-- C5 amended: under all-wildcard criteria with `max_price = P`, the
matching phase returns exactly the price-bounded subset of the catalog
(so the result is independent of predicate order); every sampled product
belongs to that subset; and whenever the subset fits within the sample
limit the sampled result is a permutation of exactly that subset. -/
theorem C5_amended_price_only_filter (shuffle : List Product → List Product)
    (hs : ∀ l : List Product, (shuffle l).Perm l)
    (productsData : List Product) (c : Criteria) (P : ℚ) (n : Nat)
    (hg : isWildcardOpt c.gender = true)
    (hcat : isWildcardOpt c.category = true)
    (hcol : isWildcardOpt c.color = true)
    (ho : c.occasion_tags = []) (hst : c.style_tags = [])
    (hm : c.max_price = some P) :
    productsData.filter (matchesCriteria c)
        = productsData.filter (fun p => decide (p.price ≤ P))
    ∧ (∀ p ∈ find_products_by_criteria shuffle productsData c n,
        p ∈ productsData ∧ p.price ≤ P)
    ∧ ((productsData.filter (fun p => decide (p.price ≤ P))).length ≤ n →
        (find_products_by_criteria shuffle productsData c n).Perm
          (productsData.filter (fun p => decide (p.price ≤ P)))) := by
  have hpt : ∀ p : Product, matchesCriteria c p = decide (p.price ≤ P) := by
    intro p
    rw [matchesCriteria, genderOk_wildcard c p hg, categoryOk_wildcard c p hcat,
      colorOk_wildcard c p hcol]
    have h5 : occasionOk c p = true := by simp [occasionOk, ho]
    have h6 : styleOk c p = true := by simp [styleOk, hst]
    have h3 : priceOk c p = decide (p.price ≤ P) := by rw [priceOk, hm]
    rw [h5, h6, h3]
    simp
  have hfilter : productsData.filter (matchesCriteria c)
      = productsData.filter (fun p => decide (p.price ≤ P)) :=
    List.filter_congr (fun p _ => hpt p)
  refine ⟨hfilter, ?_, ?_⟩
  · intro p hp
    have hmem : p ∈ shuffle (productsData.filter (matchesCriteria c)) :=
      List.mem_of_mem_take hp
    have hfound : p ∈ productsData.filter (matchesCriteria c) :=
      ((hs _).mem_iff).mp hmem
    obtain ⟨h1, h2⟩ := List.mem_filter.mp hfound
    rw [hpt p] at h2
    exact ⟨h1, of_decide_eq_true h2⟩
  · intro hlen
    have hdef : find_products_by_criteria shuffle productsData c n
        = (shuffle (productsData.filter (matchesCriteria c))).take
            (min (shuffle (productsData.filter (matchesCriteria c))).length n) :=
      rfl
    rw [hdef, hfilter]
    have hperm := hs (productsData.filter (fun p => decide (p.price ≤ P)))
    have hmin :
        min (shuffle (productsData.filter
            (fun p => decide (p.price ≤ P)))).length n
          = (shuffle (productsData.filter
              (fun p => decide (p.price ≤ P)))).length := by
      rw [hperm.length_eq]
      exact Nat.min_eq_left hlen
    rw [hmin, List.take_length]
    exact hperm

/-- Witness for the amended C5 on a singleton catalog with the identity
shuffle. -/
theorem C5_amended_price_only_filter_witness :
    ([teeShirt] : List Product).filter (matchesCriteria wildcardCriteria)
        = ([teeShirt] : List Product).filter
            (fun p => decide (p.price ≤ (100 : ℚ)))
    ∧ (∀ p ∈ find_products_by_criteria id [teeShirt] wildcardCriteria 20,
        p ∈ ([teeShirt] : List Product) ∧ p.price ≤ (100 : ℚ))
    ∧ ((([teeShirt] : List Product).filter
          (fun p => decide (p.price ≤ (100 : ℚ)))).length ≤ 20 →
        (find_products_by_criteria id [teeShirt] wildcardCriteria 20).Perm
          (([teeShirt] : List Product).filter
            (fun p => decide (p.price ≤ (100 : ℚ))))) :=
  C5_amended_price_only_filter id (fun l => List.Perm.refl l) [teeShirt]
    wildcardCriteria 100 20 rfl rfl rfl rfl rfl rfl

/-- C6: whenever the criteria's occasion-tag set is non-empty, every
product returned by the candidate filter shares at least one occasion
tag with it, compared case-insensitively (OR semantics). -/
theorem C6_occasion_tag_overlap (shuffle : List Product → List Product)
    (hs : ∀ l : List Product, (shuffle l).Perm l)
    (productsData : List Product) (c : Criteria) (n : Nat)
    (ho : c.occasion_tags ≠ []) (p : Product)
    (hp : p ∈ find_products_by_criteria shuffle productsData c n) :
    ∃ tag ∈ c.occasion_tags,
      strLower tag ∈ p.occasion_tags.map strLower := by
  have hmem : p ∈ shuffle (productsData.filter (matchesCriteria c)) :=
    List.mem_of_mem_take hp
  have hfound : p ∈ productsData.filter (matchesCriteria c) :=
    ((hs _).mem_iff).mp hmem
  have hmatch := (List.mem_filter.mp hfound).2
  rw [matchesCriteria] at hmatch
  simp only [Bool.and_eq_true] at hmatch
  have hocc : occasionOk c p = true := hmatch.1.2
  rw [occasionOk, if_neg (by simpa [List.isEmpty_iff] using ho)] at hocc
  obtain ⟨tag, htag, hcont⟩ := List.any_eq_true.mp hocc
  exact ⟨tag, htag, List.elem_iff.mp hcont⟩

/-- Witness for C6: the `party` criteria tag meets the product's
`Party` tag despite the case difference. -/
theorem C6_occasion_tag_overlap_witness :
    ∃ tag ∈ partyCriteria.occasion_tags,
      strLower tag ∈ partyShirt.occasion_tags.map strLower :=
  C6_occasion_tag_overlap id (fun l => List.Perm.refl l) [partyShirt]
    partyCriteria 20 (by decide) partyShirt
    (by
      rw [show find_products_by_criteria id [partyShirt] partyCriteria 20
          = [partyShirt] from by decide]
      exact List.mem_singleton_self _)

end FashionAI
